import Mathlib

/-!
Verification of the CSS3 tokenizer (package `scanner`): a shallow embedding of
the token model (categories, normalize, Emit, backslash escape decoding and
encoding) and of the scanner engine (`Next`, the macro-expanded productions,
position bookkeeping), together with theorems settling the specified claims.

Strings are modelled the way Go models them: as lists of bytes (`List Nat`,
each entry < 256), with UTF-8 decoding performed exactly where the source
performs it.  Rune (code point) values are also `Nat`.
-/

namespace CssScanner

/-! ## Byte and rune utilities (mirroring Go `unicode/utf8`) -/

/-- UTF-8 encoding of a rune, as performed by `bytes.Buffer.WriteRune` /
`string(r)`: surrogates and out-of-range values are replaced by U+FFFD. -/
def utf8EncodeRune (r0 : Nat) : List Nat :=
  let r := if (0xD800 ≤ r0 ∧ r0 ≤ 0xDFFF) ∨ 0x10FFFF < r0 then 0xFFFD else r0
  if r < 0x80 then [r]
  else if r < 0x800 then [0xC0 + r / 64, 0x80 + r % 64]
  else if r < 0x10000 then [0xE0 + r / 4096, 0x80 + r / 64 % 64, 0x80 + r % 64]
  else [0xF0 + r / 262144, 0x80 + r / 4096 % 64, 0x80 + r / 64 % 64, 0x80 + r % 64]

/-- UTF-8 decoding of the first rune of a byte string, following Go
`utf8.DecodeRune`: returns `(rune, size)`; malformed input yields
`(0xFFFD, 1)` and the empty string yields `(0xFFFD, 0)`. -/
def decodeRune (s : List Nat) : Nat × Nat :=
  match s with
  | [] => (0xFFFD, 0)
  | b0 :: rest =>
    if b0 < 0x80 then (b0, 1)
    else if b0 < 0xC2 then (0xFFFD, 1)
    else if b0 < 0xE0 then
      match rest with
      | b1 :: _ =>
        if 0x80 ≤ b1 ∧ b1 ≤ 0xBF then ((b0 - 0xC0) * 64 + (b1 - 0x80), 2)
        else (0xFFFD, 1)
      | [] => (0xFFFD, 1)
    else if b0 < 0xF0 then
      match rest with
      | b1 :: b2 :: _ =>
        if (if b0 = 0xE0 then 0xA0 else 0x80) ≤ b1 ∧
           b1 ≤ (if b0 = 0xED then 0x9F else 0xBF) ∧
           0x80 ≤ b2 ∧ b2 ≤ 0xBF then
          ((b0 - 0xE0) * 4096 + (b1 - 0x80) * 64 + (b2 - 0x80), 3)
        else (0xFFFD, 1)
      | _ => (0xFFFD, 1)
    else if b0 < 0xF5 then
      match rest with
      | b1 :: b2 :: b3 :: _ =>
        if (if b0 = 0xF0 then 0x90 else 0x80) ≤ b1 ∧
           b1 ≤ (if b0 = 0xF4 then 0x8F else 0xBF) ∧
           0x80 ≤ b2 ∧ b2 ≤ 0xBF ∧ 0x80 ≤ b3 ∧ b3 ≤ 0xBF then
          ((b0 - 0xF0) * 262144 + (b1 - 0x80) * 4096 + (b2 - 0x80) * 64 + (b3 - 0x80), 4)
        else (0xFFFD, 1)
      | _ => (0xFFFD, 1)
    else (0xFFFD, 1)

theorem decodeRune_size_pos (s : List Nat) (h : s ≠ []) : 1 ≤ (decodeRune s).2 := by
  match s with
  | [] => exact absurd rfl h
  | b0 :: rest =>
    unfold decodeRune
    dsimp only
    repeat' split
    all_goals simp

theorem decodeRune_size_le (s : List Nat) : (decodeRune s).2 ≤ s.length := by
  match s with
  | [] => simp [decodeRune]
  | b0 :: rest =>
    unfold decodeRune
    dsimp only
    repeat' split
    all_goals simp_all

/-- Rune count of a UTF-8 byte string, following Go `utf8.RuneCountInString`
(malformed bytes each count as one rune).  Fueled by the byte length, which
always suffices since each decoded rune occupies at least one byte. -/
def runeCountAux : Nat → List Nat → Nat
  | 0, _ => 0
  | _, [] => 0
  | n + 1, s => 1 + runeCountAux n (s.drop (decodeRune s).2)

def runeCount (s : List Nat) : Nat := runeCountAux s.length s

/-! ## The shared backslash-escape decoder (`unbackslash` and helpers) -/

/-- Source `isWhitespace` from the source: space, tab, CR, LF, form feed (bytes). -/
def isWhitespace (c : Nat) : Bool :=
  c == 32 || c == 9 || c == 13 || c == 10 || c == 12

/-- Source `isHexChar` from the source. -/
def isHexChar (c : Nat) : Bool :=
  (48 ≤ c && c ≤ 57) || (97 ≤ c && c ≤ 102) || (65 ≤ c && c ≤ 70)

/-- Source `fromHexChar` from the source. -/
def fromHexChar (c : Nat) : Nat :=
  if 48 ≤ c ∧ c ≤ 57 then c - 48
  else if 97 ≤ c ∧ c ≤ 102 then c - 97 + 10
  else if 65 ≤ c ∧ c ≤ 70 then c - 65 + 10
  else 0

/-- Source `decodeHex` from the source: most-significant hex digit first. -/
def decodeHex (l : List Nat) : Nat :=
  l.foldl (fun v c => v * 16 + fromHexChar c) 0

/-- The labelled `HEXLOOP` of `unbackslash`: starting from already-collected
digits `acc`, keep appending hex digits up to six total; a whitespace byte
after fewer than six digits is consumed; any other byte is left in place.
Returns the collected digits and the remaining input. -/
def hexLoop : List Nat → List Nat → List Nat × List Nat
  | acc, [] => (acc, [])
  | acc, c :: cs =>
    if 6 ≤ acc.length then (acc, c :: cs)
    else if isHexChar c then hexLoop (acc ++ [c]) cs
    else if isWhitespace c then (acc, cs)
    else (acc, c :: cs)

theorem hexLoop_rest_le (acc rest : List Nat) :
    (hexLoop acc rest).2.length ≤ rest.length := by
  induction rest generalizing acc with
  | nil => simp [hexLoop]
  | cons c cs ih =>
    unfold hexLoop
    split
    · simp
    · split
      · exact Nat.le_trans (ih (acc ++ [c])) (by simp)
      · split
        · simp
        · simp

/-- The main loop of `unbackslash`, reading byte by byte.  Fueled by the input
length plus one; every iteration consumes at least one byte, so this fuel is
always sufficient. -/
def unbackslashAux : Nat → Bool → List Nat → List Nat
  | 0, _, _ => []
  | _ + 1, _, [] => []
  | n + 1, isString, c :: rest =>
    if c ≠ 92 then c :: unbackslashAux n isString rest
    else
      match rest with
      | [] => [92]
      | c2 :: rest2 =>
        if isString ∧ c2 = 10 then unbackslashAux n isString rest2
        else if isString ∧ c2 = 13 then
          match rest2 with
          | [] => [92]
          | c3 :: rest3 =>
            if c3 = 10 then unbackslashAux n isString rest3
            else unbackslashAux n isString rest2
        else if isHexChar c2 then
          let p := hexLoop [c2] rest2
          utf8EncodeRune (decodeHex p.1) ++ unbackslashAux n isString p.2
        else c2 :: unbackslashAux n isString rest2

/-- Source `unbackslash` from the source: fast path when the input holds no
backslash, otherwise the decoding loop. -/
def unbackslash (s : List Nat) (isString : Bool) : List Nat :=
  if s.contains 92 then unbackslashAux (s.length + 1) isString s else s

/-! ## The regular-expression engine

Go's `regexp` package (non-POSIX) implements leftmost-first ("Perl")
semantics: among the matches anchored at the start, the one found first by a
backtracking search over the pattern is returned, with greedy repetition.
`mrun` enumerates, in exactly that backtracking order, the suffixes remaining
after each way the pattern can match a prefix of the input; the head of the
list is the match `FindString` reports.  The recursion is fueled; the fuel
chosen in `findString` dominates the search depth, in which every level
either shrinks the pattern or consumes input. -/

inductive RE where
  | eps : RE
  | cls : (Nat → Bool) → RE
  | seq : RE → RE → RE
  | alt : RE → RE → RE
  | star : RE → RE

def reSize : RE → Nat
  | .eps => 1
  | .cls _ => 1
  | .seq a b => reSize a + reSize b + 1
  | .alt a b => reSize a + reSize b + 1
  | .star r => reSize r + 1

def mrun : Nat → RE → List Nat → List (List Nat)
  | 0, _, _ => []
  | _ + 1, .eps, s => [s]
  | _ + 1, .cls p, s =>
    match s with
    | [] => []
    | _ :: _ =>
      let rn := decodeRune s
      if p rn.1 then [s.drop rn.2] else []
  | n + 1, .seq a b, s => (mrun n a s).flatMap (fun t => mrun n b t)
  | n + 1, .alt a b, s => mrun n a s ++ mrun n b s
  | n + 1, .star r, s =>
    (mrun n r s).flatMap
      (fun t => if t.length < s.length then mrun n (.star r) t else [t]) ++ [s]

/-- Every residual suffix is no longer than the input. -/
theorem mrun_length_le (n : Nat) (re : RE) (s t : List Nat)
    (h : t ∈ mrun n re s) : t.length ≤ s.length := by
  induction n generalizing re s t with
  | zero => simp [mrun] at h
  | succ n ih =>
    cases re with
    | eps =>
      simp only [mrun, List.mem_singleton] at h
      subst h; exact Nat.le_refl _
    | cls p =>
      cases s with
      | nil => simp [mrun] at h
      | cons b bs =>
        simp only [mrun] at h
        split at h
        · simp only [List.mem_singleton] at h
          subst h; simp
        · simp at h
    | seq a b =>
      simp only [mrun, List.mem_flatMap] at h
      obtain ⟨u, hu, hv⟩ := h
      exact Nat.le_trans (ih b u t hv) (ih a s u hu)
    | alt a b =>
      simp only [mrun, List.mem_append] at h
      rcases h with h | h
      · exact ih a s t h
      · exact ih b s t h
    | star r =>
      simp only [mrun, List.mem_append, List.mem_flatMap] at h
      rcases h with ⟨u, hu, hv⟩ | h
      · split at hv
        · exact Nat.le_trans (ih (.star r) u t hv) (ih r s u hu)
        · simp only [List.mem_singleton] at hv
          subst hv
          exact ih r s _ hu
      · simp only [List.mem_singleton] at h
        subst h; exact Nat.le_refl _

/-- Anchored `FindString`: the prefix corresponding to the first
(backtracking-order) match, or `[]` when the pattern does not match. -/
def findString (re : RE) (s : List Nat) : List Nat :=
  match mrun ((reSize re + 1) * (s.length + 1) + 2) re s with
  | [] => []
  | t :: _ => s.take (s.length - t.length)

/-- Derived combinators used by the production table. -/
def rePlus (r : RE) : RE := .seq r (.star r)

def reOpt (r : RE) : RE := .alt r .eps

/-- A single literal (ASCII) character. -/
def reChr (b : Nat) : RE := .cls (fun c => c == b)

/-- Greedy `{1,6}` repetition, greedy, as the backtracking search explores it. -/
def reUpTo6 (r : RE) : RE :=
  .seq r (reOpt (.seq r (reOpt (.seq r (reOpt (.seq r (reOpt (.seq r (reOpt r)))))))))

/-! ## The macros of the production table (`macros` in the source) -/

/-- Macro `{wc}`: `[\t\n\f\r ]`. -/
def reWc : RE := .cls (fun c => c == 9 || c == 10 || c == 12 || c == 13 || c == 32)

/-- Macro `{w}`: `{wc}*`. -/
def reW : RE := .star reWc

/-- Macro `{nonascii}`: `[\u0080-퟿-�\U00010000-\U0010FFFF]`. -/
def nonasciiP (c : Nat) : Bool :=
  (0x80 ≤ c && c ≤ 0xD7FF) || (0xE000 ≤ c && c ≤ 0xFFFD) ||
    (0x10000 ≤ c && c ≤ 0x10FFFF)

def reNonascii : RE := .cls nonasciiP

/-- Class `[0-9a-fA-F]` (the class inside the `unicode` macro). -/
def reHexDigit : RE := .cls isHexChar

/-- Macro `{unicode}`: `\\[0-9a-fA-F]{1,6}{wc}?`. -/
def reUnicode : RE := .seq (reChr 92) (.seq (reUpTo6 reHexDigit) (reOpt reWc))

/-- Macro `{escape}`: `{unicode}|\\[ -~\u0080-퟿-�\U00010000-\U0010FFFF]`. -/
def reEscape : RE :=
  .alt reUnicode
    (.seq (reChr 92) (.cls (fun c => (0x20 ≤ c && c ≤ 0x7E) || nonasciiP c)))

/-- Macro `{nmstart}`: `[a-zA-Z_]|{nonascii}|{escape}`. -/
def reNmstart : RE :=
  .alt (.cls (fun c => (97 ≤ c && c ≤ 122) || (65 ≤ c && c ≤ 90) || c == 95))
    (.alt reNonascii reEscape)

/-- Macro `{nmchar}`: `[a-zA-Z0-9_-]|{nonascii}|{escape}`. -/
def reNmchar : RE :=
  .alt (.cls (fun c => (97 ≤ c && c ≤ 122) || (65 ≤ c && c ≤ 90) ||
                (48 ≤ c && c ≤ 57) || c == 95 || c == 45))
    (.alt reNonascii reEscape)

/-- Macro `{ident}`: `-?{nmstart}{nmchar}*`. -/
def reIdent : RE := .seq (reOpt (reChr 45)) (.seq reNmstart (.star reNmchar))

/-- Macro `{name}`: `{nmchar}+`. -/
def reName : RE := rePlus reNmchar

/-- Macro `{num}`: `[0-9]*\.[0-9]+|[0-9]+`. -/
def reDigit : RE := .cls (fun c => 48 ≤ c && c ≤ 57)

def reNum : RE :=
  .alt (.seq (.star reDigit) (.seq (reChr 46) (rePlus reDigit))) (rePlus reDigit)

/-- Macro `{nl}`: `[\n\r\f]|\r\n`. -/
def reNl : RE :=
  .alt (.cls (fun c => c == 10 || c == 13 || c == 12)) (.seq (reChr 13) (reChr 10))

/-- Macro `{urlchar}`: `[\u0009!#-&'-~]|{nonascii}|{escape}`. -/
def reUrlchar : RE :=
  .alt (.cls (fun c => c == 9 || c == 0x21 || (0x23 ≤ c && c ≤ 0x26) ||
                (0x27 ≤ c && c ≤ 0x7E)))
    (.alt reNonascii reEscape)

/-- Macro `{stringchar}`: `{urlchar}|[ ]|\\{nl}`. -/
def reStringchar : RE :=
  .alt reUrlchar (.alt (reChr 32) (.seq (reChr 92) reNl))

/-! ## The productions (`productions` in the source) -/

/-- Production `Ident`: `{ident}`. -/
def pIdent : RE := reIdent

/-- Production `AtKeyword`: `@{ident}`. -/
def pAtKeyword : RE := .seq (reChr 64) reIdent

/-- Production `String`: `"(?:{stringchar}|')*"|'(?:{stringchar}|")*'`. -/
def pString : RE :=
  .alt (.seq (reChr 34) (.seq (.star (.alt reStringchar (reChr 39))) (reChr 34)))
    (.seq (reChr 39) (.seq (.star (.alt reStringchar (reChr 34))) (reChr 39)))

/-- Production `Hash`: `#{name}`. -/
def pHash : RE := .seq (reChr 35) reName

/-- Production `Number`: `{num}`. -/
def pNumber : RE := reNum

/-- Production `Percentage`: `{num}%`. -/
def pPercentage : RE := .seq reNum (reChr 37)

/-- Production `Dimension`: `{num}{ident}`. -/
def pDimension : RE := .seq reNum reIdent

/-- Production `URI`: `[Uu][Rr][Ll]\({w}(?:{string}|{urlchar}*){w}\)`. -/
def pURI : RE :=
  .seq (.cls (fun c => c == 85 || c == 117))
    (.seq (.cls (fun c => c == 82 || c == 114))
      (.seq (.cls (fun c => c == 76 || c == 108))
        (.seq (reChr 40)
          (.seq reW
            (.seq (.alt pString (.star reUrlchar))
              (.seq reW (reChr 41)))))))

/-- Production `UnicodeRange`: `[Uu]\+[0-9A-F\?]{1,6}(?:-[0-9A-F]{1,6})?`. -/
def pUnicodeRange : RE :=
  .seq (.cls (fun c => c == 85 || c == 117))
    (.seq (reChr 43)
      (.seq (reUpTo6 (.cls (fun c => (48 ≤ c && c ≤ 57) || (65 ≤ c && c ≤ 70) || c == 63)))
        (reOpt (.seq (reChr 45)
          (reUpTo6 (.cls (fun c => (48 ≤ c && c ≤ 57) || (65 ≤ c && c ≤ 70))))))))

/-- Production `CDC`: `-->`. -/
def pCDC : RE := .seq (reChr 45) (.seq (reChr 45) (reChr 62))

/-- Production `S`: `{wc}+`. -/
def pS : RE := rePlus reWc

/-- Production `Comment`: `/\*[^\*]*[\*]+(?:[^/][^\*]*[\*]+)*/`. -/
def pComment : RE :=
  .seq (reChr 47)
    (.seq (reChr 42)
      (.seq (.star (.cls (fun c => !(c == 42))))
        (.seq (rePlus (reChr 42))
          (.seq (.star (.seq (.cls (fun c => !(c == 47)))
                  (.seq (.star (.cls (fun c => !(c == 42)))) (rePlus (reChr 42)))))
            (reChr 47)))))

/-- Production `Function`: `{ident}\(`. -/
def pFunction : RE := .seq reIdent (reChr 40)

/-! ## The token model -/

/-- The closed set of token categories (`Type` and its constants in the
source; `s` is the whitespace category `S`, `delim` is `Delim`). -/
inductive TType where
  | error | eof | ident | atKeyword | string | hash | number | percentage
  | dimension | uri | unicodeRange | cdo | cdc | s | comment | function
  | includes | dashMatch | prefixMatch | suffixMatch | substringMatch
  | delim | bom
  deriving DecidableEq, Repr

/-- Source `Token`: category, value (bytes), 1-based line and column. -/
structure Token where
  typ : TType
  value : List Nat
  line : Nat
  column : Nat
  deriving DecidableEq, Repr

/-- The matcher table entry consulted for a category (`matchers` in the
source; only the categories with a production are ever looked up). -/
def matcherOf : TType → RE
  | .ident => pIdent
  | .atKeyword => pAtKeyword
  | .string => pString
  | .hash => pHash
  | .number => pNumber
  | .percentage => pPercentage
  | .dimension => pDimension
  | .uri => pURI
  | .unicodeRange => pUnicodeRange
  | .cdc => pCDC
  | .s => pS
  | .comment => pComment
  | .function => pFunction
  | _ => .cls (fun _ => false)

/-- Source `matchOrder`: the order in which the remaining productions are tried when
no first-byte shortcut applies. -/
def matchOrder : List TType :=
  [.uri, .function, .unicodeRange, .ident, .dimension, .percentage, .number, .cdc]

/-! ## The scanner -/

/-- Scanner state.  The source keeps the full input and a byte offset `pos`;
here `rest` is the unconsumed suffix `input[pos:]` and `pos` the byte offset,
which together carry the same information. -/
structure Scanner where
  rest : List Nat
  pos : Nat
  row : Nat
  col : Nat
  err : Option Token
  deriving DecidableEq, Repr

/-- Go `strings.Replace(input, "\r\n", "\n", -1)` performed by `New`. -/
def replaceCRLF : List Nat → List Nat
  | [] => []
  | 13 :: 10 :: rest => 10 :: replaceCRLF rest
  | b :: rest => b :: replaceCRLF rest

/-- Source `New`: a scanner over the given input with normalized newlines. -/
def New (input : List Nat) : Scanner :=
  { rest := replaceCRLF input, pos := 0, row := 1, col := 1, err := none }

/-- Number of line feeds in the consumed text (`strings.Count(text, "\n")`). -/
def countLF (v : List Nat) : Nat := v.count 10

/-- Byte index of the last line feed (`strings.LastIndex(text, "\n")`);
meaningful only when a line feed is present. -/
def lastLFIndex (v : List Nat) : Nat :=
  v.length - 1 - v.reverse.findIdx (fun b => b == 10)

/-- Source `updatePosition` followed by the `pos` advance: row grows by the line-feed
count, the column is reset from the rune count since the last line feed (or
advanced by the rune count when the text is single-line), and `pos` moves by
the byte length. -/
def updatePosition (sc : Scanner) (v : List Nat) : Scanner :=
  let width := runeCount v
  let lines := countLF v
  { sc with
    row := sc.row + lines
    col := if lines = 0 then sc.col + width else runeCount (v.drop (lastLFIndex v))
    pos := sc.pos + v.length
    rest := sc.rest.drop v.length }

/-- Source `emitToken`: a token at the current position, then full position update. -/
def emitToken (sc : Scanner) (t : TType) (v : List Nat) : Token × Scanner :=
  (⟨t, v, sc.row, sc.col⟩, updatePosition sc v)

/-- Source `emitSimple`: a token at the current position, advancing the column by the
byte length of `v` (the source assumes `v` is ASCII and newline-free). -/
def emitSimple (sc : Scanner) (t : TType) (v : List Nat) : Token × Scanner :=
  (⟨t, v, sc.row, sc.col⟩,
   { sc with col := sc.col + v.length, pos := sc.pos + v.length,
             rest := sc.rest.drop v.length })

/-- Source `emitPrefixOrChar`: the two-to-four byte operator if the input starts with
it, otherwise its first byte as a delimiter. -/
def emitPrefixOrChar (sc : Scanner) (t : TType) (p : List Nat) : Token × Scanner :=
  if sc.rest.take p.length = p then emitSimple sc t p
  else emitSimple sc .delim [p.headD 0]

/-- Diagnostic values of the two fatal conditions (ASCII bytes of
"unclosed quotation mark" and "unclosed comment"). -/
def unclosedQuoteMsg : List Nat :=
  [117, 110, 99, 108, 111, 115, 101, 100, 32, 113, 117, 111, 116, 97, 116,
   105, 111, 110, 32, 109, 97, 114, 107]

def unclosedCommentMsg : List Nat :=
  [117, 110, 99, 108, 111, 115, 101, 100, 32, 99, 111, 109, 109, 101, 110, 116]

/-- Go `unicode.IsDigit(rune(input[1]))`: the only digits below 256 are ASCII. -/
def isDigitByte (b : Nat) : Bool := 48 ≤ b && b ≤ 57

/-- The `for _, token := range matchOrder` loop: first production whose
matcher finds a non-empty prefix. -/
def matchFirst (input : List Nat) : List TType → Option (TType × List Nat)
  | [] => none
  | t :: ts =>
    let m := findString (matcherOf t) input
    if m = [] then matchFirst input ts else some (t, m)

/-- The tail of `Next`: the `matchOrder` loop and the single-rune
delimiter catch-all. -/
def matchLoop (sc : Scanner) (input : List Nat) : Token × Scanner :=
  match matchFirst input matchOrder with
  | some (t, m) => emitToken sc t m
  | none =>
    let rn := decodeRune input
    (⟨.delim, utf8EncodeRune rn.1, sc.row, sc.col⟩,
     { sc with col := sc.col + rn.2, pos := sc.pos + rn.2,
               rest := sc.rest.drop rn.2 })

/-- The dispatch on the first byte `b` of the remaining input `b :: bs`
(the body of the source's `switch input[0]` together with the BOM check and
the regexp fallback). -/
def nextDispatch (sc : Scanner) (b : Nat) (bs : List Nat) : Token × Scanner :=
  if sc.pos = 0 ∧ List.take 3 (b :: bs) = [239, 187, 191] then
        emitSimple sc .bom [239, 187, 191]
      else if b = 9 ∨ b = 10 ∨ b = 12 ∨ b = 13 ∨ b = 32 then
        emitToken sc .s (findString pS (b :: bs))
      else if b = 46 then
        if 0 < bs.length ∧ ¬ isDigitByte (bs.headD 0) then
          emitSimple sc .delim [46]
        else matchLoop sc (b :: bs)
      else if b = 35 then
        if findString pHash (b :: bs) = [] then emitSimple sc .delim [35]
        else emitToken sc .hash (findString pHash (b :: bs))
      else if b = 64 then
        if findString pAtKeyword (b :: bs) = [] then emitSimple sc .delim [64]
        else emitSimple sc .atKeyword (findString pAtKeyword (b :: bs))
      else if b = 58 ∨ b = 44 ∨ b = 59 ∨ b = 37 ∨ b = 38 ∨ b = 43 ∨ b = 61 ∨
              b = 62 ∨ b = 40 ∨ b = 41 ∨ b = 91 ∨ b = 93 ∨ b = 123 ∨ b = 125 then
        emitSimple sc .delim [b]
      else if b = 34 ∨ b = 39 then
        if findString pString (b :: bs) = [] then
          (⟨.error, unclosedQuoteMsg, sc.row, sc.col⟩,
           { sc with err := some ⟨.error, unclosedQuoteMsg, sc.row, sc.col⟩ })
        else emitToken sc .string (findString pString (b :: bs))
      else if b = 47 then
        if 0 < bs.length ∧ bs.headD 0 = 42 then
          if findString pComment (b :: bs) = [] then
            (⟨.error, unclosedCommentMsg, sc.row, sc.col⟩,
             { sc with err := some ⟨.error, unclosedCommentMsg, sc.row, sc.col⟩ })
          else emitToken sc .comment (findString pComment (b :: bs))
        else emitSimple sc .delim [47]
      else if b = 126 then emitPrefixOrChar sc .includes [126, 61]
      else if b = 124 then emitPrefixOrChar sc .dashMatch [124, 61]
      else if b = 94 then emitPrefixOrChar sc .prefixMatch [94, 61]
      else if b = 36 then emitPrefixOrChar sc .suffixMatch [36, 61]
      else if b = 42 then emitPrefixOrChar sc .substringMatch [42, 61]
      else if b = 60 then emitPrefixOrChar sc .cdo [60, 33, 45, 45]
      else matchLoop sc (b :: bs)

/-- Source `Next`: produce the next token.  A cached terminal token is returned
as-is; exhausted input freezes the end-of-input token; otherwise the
first-byte dispatch runs. -/
def Next (sc : Scanner) : Token × Scanner :=
  match sc.err with
  | some t => (t, sc)
  | none =>
    match sc.rest with
    | [] =>
      (⟨.eof, [], sc.row, sc.col⟩,
       { sc with err := some ⟨.eof, [], sc.row, sc.col⟩ })
    | b :: bs => nextDispatch sc b bs

/-! ## Normalization (`normalize` in the source)

Go slice expressions panic when their bounds are violated; those paths are
modelled as `none`. -/

/-- Go `unicode.IsSpace` (the White_Space property). -/
def isSpaceRune (r : Nat) : Bool :=
  r == 9 || r == 10 || r == 11 || r == 12 || r == 13 || r == 32 ||
  r == 0x85 || r == 0xA0 || r == 0x1680 || (0x2000 ≤ r && r ≤ 0x200A) ||
  r == 0x2028 || r == 0x2029 || r == 0x202F || r == 0x205F || r == 0x3000

/-- Go `utf8.RuneStart`: not a continuation byte. -/
def runeStart (b : Nat) : Bool := b < 0x80 || 0xC0 ≤ b

/-- Go `utf8.DecodeLastRune`: decode the final rune of a byte string. -/
def decodeLastRune (s : List Nat) : Nat × Nat :=
  match s.getLast? with
  | none => (0xFFFD, 0)
  | some bl =>
    if bl < 0x80 then (bl, 1)
    else
      let e := s.length
      let lim := e - 4
      let st :=
        if 2 ≤ e ∧ lim ≤ e - 2 ∧ runeStart (s.getD (e - 2) 0) then e - 2
        else if 3 ≤ e ∧ lim ≤ e - 3 ∧ runeStart (s.getD (e - 3) 0) then e - 3
        else if 4 ≤ e ∧ lim ≤ e - 4 ∧ runeStart (s.getD (e - 4) 0) then e - 4
        else lim - 1
      let rn := decodeRune (s.drop st)
      if st + rn.2 = e then rn else (0xFFFD, 1)

/-- Left half of `strings.TrimSpace`, fueled by the byte length. -/
def trimLeftSpace : Nat → List Nat → List Nat
  | 0, s => s
  | _ + 1, [] => []
  | n + 1, s =>
    let rn := decodeRune s
    if isSpaceRune rn.1 then trimLeftSpace n (s.drop rn.2) else s

/-- Right half of `strings.TrimSpace`, fueled by the byte length. -/
def trimRightSpace : Nat → List Nat → List Nat
  | 0, s => s
  | _ + 1, [] => []
  | n + 1, s =>
    let rn := decodeLastRune s
    if isSpaceRune rn.1 then trimRightSpace n (s.take (s.length - rn.2)) else s

/-- Go `strings.TrimSpace`. -/
def trimSpace (s : List Nat) : List Nat :=
  trimRightSpace s.length (trimLeftSpace s.length s)

/-- Source `normalize`: raw lexeme to canonical value.  Returns `none` exactly when
the corresponding Go slice expression would panic. -/
def normalize (t : Token) : Option Token :=
  match t.typ with
  | .ident => some { t with value := unbackslash t.value false }
  | .atKeyword =>
    if t.value.length < 1 then none
    else some { t with value := unbackslash (t.value.drop 1) false }
  | .string =>
    if t.value.length < 2 then none
    else some { t with value := unbackslash ((t.value.drop 1).dropLast) true }
  | .hash =>
    if t.value.length < 1 then none
    else some { t with value := unbackslash (t.value.drop 1) false }
  | .percentage =>
    if t.value.length < 1 then none
    else some { t with value := t.value.dropLast }
  | .dimension => some { t with value := unbackslash t.value false }
  | .cdo => some { t with value := [] }
  | .cdc => some { t with value := [] }
  | .uri =>
    if t.value.length < 5 then none
    else
      let trimmed := trimSpace ((t.value.drop 4).dropLast)
      if trimmed = [] then some { t with value := [] }
      else
        let lastIdx := trimmed.length - 1
        if (trimmed.headD 0 = 39 ∧ trimmed.getD lastIdx 0 = 39) ∨
           (trimmed.headD 0 = 34 ∧ trimmed.getD lastIdx 0 = 34) then
          if lastIdx < 1 then none
          else some { t with value := unbackslash ((trimmed.drop 1).dropLast) false }
        else some { t with value := unbackslash trimmed false }
  | .comment =>
    if t.value.length < 4 then none
    else some { t with value := (((t.value.drop 2)).dropLast).dropLast }
  | .function =>
    if t.value.length < 1 then none
    else some { t with value := unbackslash t.value.dropLast false }
  | .includes => some { t with value := [] }
  | .dashMatch => some { t with value := [] }
  | .prefixMatch => some { t with value := [] }
  | .suffixMatch => some { t with value := [] }
  | .substringMatch => some { t with value := [] }
  | _ => some t

/-! ## Emission (`Emit`, `wr`, `backslashifyString`, `backslashifyIdent`) -/

/-- Source `backslashifyString`: escape the double quote and every rune below `#`
other than tab and `!`.  Fueled by the byte length. -/
def backslashifyString : Nat → List Nat → List Nat
  | 0, _ => []
  | _ + 1, [] => []
  | n + 1, s =>
    let rn := decodeRune s
    (if rn.1 = 34 then 92 :: utf8EncodeRune rn.1
     else if 35 ≤ rn.1 then utf8EncodeRune rn.1
     else if rn.1 = 9 ∨ rn.1 = 33 then utf8EncodeRune rn.1
     else 92 :: utf8EncodeRune rn.1) ++ backslashifyString n (s.drop rn.2)

/-- Source `backslashifyIdent`: escape every rune that is not a letter, `_` or `-`
and is at most 255. -/
def backslashifyIdent : Nat → List Nat → List Nat
  | 0, _ => []
  | _ + 1, [] => []
  | n + 1, s =>
    let rn := decodeRune s
    (if ¬ (97 ≤ rn.1 ∧ rn.1 ≤ 122) ∧ ¬ (65 ≤ rn.1 ∧ rn.1 ≤ 90) ∧
        rn.1 ≠ 95 ∧ rn.1 ≠ 45 ∧ rn.1 ≤ 255 then
      92 :: utf8EncodeRune rn.1
     else utf8EncodeRune rn.1) ++ backslashifyIdent n (s.drop rn.2)

def bsString (s : List Nat) : List Nat := backslashifyString s.length s

def bsIdent (s : List Nat) : List Nat := backslashifyIdent s.length s

/-- Failure modes of `Emit`: the two unemittable categories and a write error
passed through from the sink. -/
inductive EmitErr where
  | unemittableError | unemittableEOF | sinkFail
  deriving DecidableEq, Repr

/-- Source `wr`: write the chunks in order to the sink, stopping at the first failed
write; the sink is modelled by which of its successive write calls succeed. -/
def wr (sink : Nat → Bool) : Nat → List (List Nat) → Option EmitErr × List Nat
  | _, [] => (none, [])
  | i, c :: cs =>
    if sink i then ((wr sink (i + 1) cs).1, c ++ (wr sink (i + 1) cs).2)
    else (some .sinkFail, [])

/-- The chunk sequence `Emit` passes to `wr` for each emittable category. -/
def emitChunks (t : Token) : List (List Nat) :=
  match t.typ with
  | .ident => [bsIdent t.value]
  | .atKeyword => [[64], bsIdent t.value]
  | .string => [[34], bsString t.value, [34]]
  | .hash => [[35], bsIdent t.value]
  | .number => [t.value]
  | .percentage => [t.value, [37]]
  | .dimension => [t.value]
  | .uri => [[117, 114, 108, 40, 39], bsString t.value, [39, 41]]
  | .unicodeRange => [t.value]
  | .cdo => [[60, 33, 45, 45]]
  | .cdc => [[45, 45, 62]]
  | .s => [t.value]
  | .comment => [[47, 42], t.value, [42, 47]]
  | .function => [bsIdent t.value, [40]]
  | .includes => [[126, 61]]
  | .dashMatch => [[124, 61]]
  | .prefixMatch => [[94, 61]]
  | .suffixMatch => [[36, 61]]
  | .substringMatch => [[42, 61]]
  | .delim => [t.value]
  | .bom => [[239, 187, 191]]
  | _ => []

/-- Source `Emit`: returns the error (if any) and the bytes written to the sink. -/
def Emit (sink : Nat → Bool) (t : Token) : Option EmitErr × List Nat :=
  match t.typ with
  | .error => (some .unemittableError, [])
  | .eof => (some .unemittableEOF, [])
  | _ => wr sink 0 (emitChunks t)


/-! ## Generic facts about `Next` -/

theorem mrun_star_ne_nil (n : Nat) (r : RE) (s : List Nat) :
    mrun (n + 1) (.star r) s ≠ [] := by
  simp [mrun]

theorem findString_pS_pos (b : Nat) (bs : List Nat)
    (hb : b = 9 ∨ b = 10 ∨ b = 12 ∨ b = 13 ∨ b = 32) :
    1 ≤ (findString pS (b :: bs)).length := by
  unfold findString
  have hdec : decodeRune (b :: bs) = (b, 1) := by
    rcases hb with h | h | h | h | h <;> subst h <;> simp [decodeRune]
  have hwc : (fun c => c == 9 || c == 10 || c == 12 || c == 13 || c == 32) b = true := by
    rcases hb with h | h | h | h | h <;> subst h <;> decide
  set F := (reSize pS + 1) * ((b :: bs).length + 1) + 2 with hF
  have h2 : ∃ k, F = k + 2 := ⟨(reSize pS + 1) * ((b :: bs).length + 1), rfl⟩
  obtain ⟨k, hk⟩ := h2
  rw [hk]
  have hred : mrun (k + 2) pS (b :: bs)
      = mrun (k + 1) (.star reWc) bs := by
    show mrun (k + 2) (.seq reWc (.star reWc)) (b :: bs) = _
    simp only [mrun, reWc]
    rw [hdec]
    simp [hwc]
  rw [hred]
  cases hT : mrun (k + 1) (.star reWc) bs with
  | nil => exact absurd hT (mrun_star_ne_nil k reWc bs)
  | cons t ts =>
    have ht : t ∈ mrun (k + 1) (.star reWc) bs := by rw [hT]; exact List.mem_cons_self _ _
    have hle : t.length ≤ bs.length := mrun_length_le _ _ _ _ ht
    simp only [List.length_take, List.length_cons]
    omega

theorem matchFirst_spec (input : List Nat) (l : List TType) (ty : TType) (m : List Nat)
    (h : matchFirst input l = some (ty, m)) : ty ∈ l ∧ m ≠ [] := by
  induction l with
  | nil => simp [matchFirst] at h
  | cons t ts ih =>
    simp only [matchFirst] at h
    split at h
    · rcases ih h with ⟨h1, h2⟩
      exact ⟨List.mem_cons_of_mem _ h1, h2⟩
    · rename_i hne
      rw [Option.some.injEq, Prod.mk.injEq] at h
      rcases h with ⟨h1, h2⟩
      subst h1
      subst h2
      exact ⟨List.mem_cons_self _ _, hne⟩

theorem matchOrder_no_terminal (ty : TType) (h : ty ∈ matchOrder) :
    ty ≠ .eof ∧ ty ≠ .error := by
  fin_cases h <;> exact ⟨by decide, by decide⟩

/-- The facts about one `Next` step shared by several claims: terminal tokens
freeze the state with the token cached; error tokens carry one of the two
diagnostics; non-terminal tokens consume at least one byte and leave no
cached terminal. -/
def NextOk (sc : Scanner) (r : Token × Scanner) : Prop :=
  ((r.1.typ = .eof ∨ r.1.typ = .error) → r.2 = { sc with err := some r.1 }) ∧
  (r.1.typ = .error →
    r.1.value = unclosedQuoteMsg ∨ r.1.value = unclosedCommentMsg) ∧
  (r.1.typ ≠ .eof → r.1.typ ≠ .error →
    r.2.err = sc.err ∧ sc.pos + 1 ≤ r.2.pos ∧ r.2.rest.length < sc.rest.length)

theorem nextOk_emitSimple (sc : Scanner) (ty : TType) (v : List Nat)
    (hty : ty ≠ .eof ∧ ty ≠ .error) (hv : v ≠ []) (hr : sc.rest ≠ []) :
    NextOk sc (emitSimple sc ty v) := by
  refine ⟨?_, ?_, ?_⟩
  · intro h
    exact absurd h (by simp [emitSimple, hty.1, hty.2])
  · intro h
    exact absurd h (by simp [emitSimple, hty.2])
  · intro _ _
    refine ⟨rfl, ?_, ?_⟩
    · have : 1 ≤ v.length := List.length_pos.mpr hv
      simp only [emitSimple]
      omega
    · have h1 : 1 ≤ v.length := List.length_pos.mpr hv
      have h2 : 1 ≤ sc.rest.length := List.length_pos.mpr hr
      simp only [emitSimple, List.length_drop]
      omega

theorem nextOk_emitToken (sc : Scanner) (ty : TType) (v : List Nat)
    (hty : ty ≠ .eof ∧ ty ≠ .error) (hv : v ≠ []) (hr : sc.rest ≠ []) :
    NextOk sc (emitToken sc ty v) := by
  refine ⟨?_, ?_, ?_⟩
  · intro h
    exact absurd h (by simp [emitToken, hty.1, hty.2])
  · intro h
    exact absurd h (by simp [emitToken, hty.2])
  · intro _ _
    refine ⟨rfl, ?_, ?_⟩
    · have : 1 ≤ v.length := List.length_pos.mpr hv
      simp only [emitToken, updatePosition]
      omega
    · have h1 : 1 ≤ v.length := List.length_pos.mpr hv
      have h2 : 1 ≤ sc.rest.length := List.length_pos.mpr hr
      simp only [emitToken, updatePosition, List.length_drop]
      omega

theorem nextOk_emitPrefixOrChar (sc : Scanner) (ty : TType) (p : List Nat)
    (hty : ty ≠ .eof ∧ ty ≠ .error) (hp : p ≠ []) (hr : sc.rest ≠ []) :
    NextOk sc (emitPrefixOrChar sc ty p) := by
  unfold emitPrefixOrChar
  split
  · exact nextOk_emitSimple sc ty p hty hp hr
  · exact nextOk_emitSimple sc .delim [p.headD 0] ⟨by decide, by decide⟩ (by simp) hr

theorem nextOk_matchLoop (sc : Scanner) (hr : sc.rest ≠ []) :
    NextOk sc (matchLoop sc sc.rest) := by
  unfold matchLoop
  cases hm : matchFirst sc.rest matchOrder with
  | some tm =>
    obtain ⟨hmem, hne⟩ := matchFirst_spec sc.rest matchOrder tm.1 tm.2 (by rw [hm])
    exact nextOk_emitToken sc tm.1 tm.2 (matchOrder_no_terminal tm.1 hmem) hne hr
  | none =>
    have hpos : 1 ≤ (decodeRune sc.rest).2 := decodeRune_size_pos sc.rest hr
    have h2 : 1 ≤ sc.rest.length := List.length_pos.mpr hr
    refine ⟨?_, ?_, ?_⟩
    · intro h
      simp at h
    · intro h
      simp at h
    · intro _ _
      refine ⟨rfl, by dsimp only; omega, ?_⟩
      dsimp only
      simp only [List.length_drop]
      omega

theorem nextDispatch_ok (sc : Scanner) (b : Nat) (bs : List Nat)
    (hr : sc.rest = b :: bs) : NextOk sc (nextDispatch sc b bs) := by
  have hrne : sc.rest ≠ [] := by rw [hr]; simp
  have hdel : ∀ v : List Nat, v ≠ [] → NextOk sc (emitSimple sc .delim v) :=
    fun v hv => nextOk_emitSimple sc .delim v ⟨by decide, by decide⟩ hv hrne
  unfold nextDispatch
  by_cases h1 : sc.pos = 0 ∧ List.take 3 (b :: bs) = [239, 187, 191]
  · rw [if_pos h1]
    exact nextOk_emitSimple sc .bom [239, 187, 191] ⟨by decide, by decide⟩ (by decide) hrne
  rw [if_neg h1]
  by_cases h2 : b = 9 ∨ b = 10 ∨ b = 12 ∨ b = 13 ∨ b = 32
  · rw [if_pos h2]
    refine nextOk_emitToken sc .s _ ⟨by decide, by decide⟩ ?_ hrne
    have hp := findString_pS_pos b bs h2
    intro hnil
    rw [hnil] at hp
    simp at hp
  rw [if_neg h2]
  by_cases h3 : b = 46
  · rw [if_pos h3]
    by_cases h3a : 0 < bs.length ∧ ¬ isDigitByte (bs.headD 0)
    · rw [if_pos h3a]
      exact hdel [46] (by decide)
    · rw [if_neg h3a, ← hr]
      exact nextOk_matchLoop sc hrne
  rw [if_neg h3]
  by_cases h4 : b = 35
  · rw [if_pos h4]
    by_cases h4a : findString pHash (b :: bs) = []
    · rw [if_pos h4a]
      exact hdel [35] (by decide)
    · rw [if_neg h4a]
      exact nextOk_emitToken sc .hash _ ⟨by decide, by decide⟩ h4a hrne
  rw [if_neg h4]
  by_cases h5 : b = 64
  · rw [if_pos h5]
    by_cases h5a : findString pAtKeyword (b :: bs) = []
    · rw [if_pos h5a]
      exact hdel [64] (by decide)
    · rw [if_neg h5a]
      exact nextOk_emitSimple sc .atKeyword _ ⟨by decide, by decide⟩ h5a hrne
  rw [if_neg h5]
  by_cases h6 : b = 58 ∨ b = 44 ∨ b = 59 ∨ b = 37 ∨ b = 38 ∨ b = 43 ∨ b = 61 ∨
      b = 62 ∨ b = 40 ∨ b = 41 ∨ b = 91 ∨ b = 93 ∨ b = 123 ∨ b = 125
  · rw [if_pos h6]
    exact hdel [b] (by simp)
  rw [if_neg h6]
  by_cases h7 : b = 34 ∨ b = 39
  · rw [if_pos h7]
    by_cases h7a : findString pString (b :: bs) = []
    · rw [if_pos h7a]
      exact ⟨fun _ => rfl, fun _ => Or.inl rfl, fun _ hx => absurd rfl hx⟩
    · rw [if_neg h7a]
      exact nextOk_emitToken sc .string _ ⟨by decide, by decide⟩ h7a hrne
  rw [if_neg h7]
  by_cases h8 : b = 47
  · rw [if_pos h8]
    by_cases h8a : 0 < bs.length ∧ bs.headD 0 = 42
    · rw [if_pos h8a]
      by_cases h8b : findString pComment (b :: bs) = []
      · rw [if_pos h8b]
        exact ⟨fun _ => rfl, fun _ => Or.inr rfl, fun _ hx => absurd rfl hx⟩
      · rw [if_neg h8b]
        exact nextOk_emitToken sc .comment _ ⟨by decide, by decide⟩ h8b hrne
    · rw [if_neg h8a]
      exact hdel [47] (by decide)
  rw [if_neg h8]
  by_cases h9 : b = 126
  · rw [if_pos h9]
    exact nextOk_emitPrefixOrChar sc .includes [126, 61] ⟨by decide, by decide⟩ (by decide) hrne
  rw [if_neg h9]
  by_cases h10 : b = 124
  · rw [if_pos h10]
    exact nextOk_emitPrefixOrChar sc .dashMatch [124, 61] ⟨by decide, by decide⟩ (by decide) hrne
  rw [if_neg h10]
  by_cases h11 : b = 94
  · rw [if_pos h11]
    exact nextOk_emitPrefixOrChar sc .prefixMatch [94, 61] ⟨by decide, by decide⟩ (by decide) hrne
  rw [if_neg h11]
  by_cases h12 : b = 36
  · rw [if_pos h12]
    exact nextOk_emitPrefixOrChar sc .suffixMatch [36, 61] ⟨by decide, by decide⟩ (by decide) hrne
  rw [if_neg h12]
  by_cases h13 : b = 42
  · rw [if_pos h13]
    exact nextOk_emitPrefixOrChar sc .substringMatch [42, 61] ⟨by decide, by decide⟩ (by decide) hrne
  rw [if_neg h13]
  by_cases h14 : b = 60
  · rw [if_pos h14]
    exact nextOk_emitPrefixOrChar sc .cdo [60, 33, 45, 45] ⟨by decide, by decide⟩ (by decide) hrne
  rw [if_neg h14, ← hr]
  exact nextOk_matchLoop sc hrne

theorem Next_spec (sc : Scanner) (h : sc.err = none) : NextOk sc (Next sc) := by
  rcases hr : sc.rest with _ | ⟨b, bs⟩
  · have hnext : Next sc =
        (⟨.eof, [], sc.row, sc.col⟩,
         { sc with err := some ⟨.eof, [], sc.row, sc.col⟩ }) := by
      unfold Next
      rw [h, hr]
    rw [hnext]
    exact ⟨fun _ => rfl, fun ht => by simp at ht, fun h1 _ => absurd rfl h1⟩
  · have hnext : Next sc = nextDispatch sc b bs := by
      unfold Next
      rw [h, hr]
    rw [hnext]
    exact nextDispatch_ok sc b bs hr


/-! ## Iteration of the scanner and termination -/

/-- Iterated stepping of the scanner state by `Next`. -/
def stepN : Nat → Scanner → Scanner
  | 0, sc => sc
  | n + 1, sc => stepN n (Next sc).2

theorem stepN_fixed (sc : Scanner) (t : Token) (h : Next sc = (t, sc)) :
    ∀ n, stepN n sc = sc ∧ (Next (stepN n sc)).1 = t := by
  intro n
  induction n with
  | zero => exact ⟨rfl, by rw [stepN, h]⟩
  | succ n ih =>
    have hs : stepN (n + 1) sc = stepN n (Next sc).2 := rfl
    rw [hs, h]
    exact ih

theorem scanReachesTerminal : ∀ (N : Nat) (sc : Scanner), sc.err = none →
    sc.rest.length ≤ N →
    ∃ n, n ≤ sc.rest.length ∧
      ((Next (stepN n sc)).1.typ = .eof ∨ (Next (stepN n sc)).1.typ = .error) := by
  intro N
  induction N with
  | zero =>
    intro sc h hle
    refine ⟨0, Nat.zero_le _, Or.inl ?_⟩
    have hnil : sc.rest = [] := List.length_eq_zero.mp (Nat.le_zero.mp hle)
    show (Next sc).1.typ = .eof
    unfold Next
    rw [h, hnil]
  | succ N ih =>
    intro sc h hle
    by_cases hterm : (Next sc).1.typ = .eof ∨ (Next sc).1.typ = .error
    · exact ⟨0, Nat.zero_le _, hterm⟩
    · push_neg at hterm
      obtain ⟨_, _, hspec3⟩ := Next_spec sc h
      obtain ⟨herr2, hpos2, hrest2⟩ := hspec3 hterm.1 hterm.2
      rw [h] at herr2
      have hle2 : (Next sc).2.rest.length ≤ N := by omega
      obtain ⟨n, hn, hterm2⟩ := ih (Next sc).2 herr2 hle2
      exact ⟨n + 1, by omega, hterm2⟩

/-! ## Facts about `wr` -/

theorem wr_ok (sink : Nat → Bool) (hs : ∀ i, sink i = true) :
    ∀ (cs : List (List Nat)) (i : Nat), (wr sink i cs).1 = none := by
  intro cs
  induction cs with
  | nil => intro i; rfl
  | cons c cs ih =>
    intro i
    unfold wr
    rw [hs i]
    simp [ih (i + 1)]

theorem wr_fail (sink : Nat → Bool) :
    ∀ (cs : List (List Nat)) (i : Nat) (e : EmitErr),
      (wr sink i cs).1 = some e → ∃ j, sink j = false := by
  intro cs
  induction cs with
  | nil => intro i e h; simp [wr] at h
  | cons c cs ih =>
    intro i e h
    unfold wr at h
    by_cases hsi : sink i
    · rw [if_pos hsi] at h
      exact ih (i + 1) e h
    · exact ⟨i, Bool.not_eq_true _ ▸ hsi⟩

/-! ## The claims -/

/-- C1: the round-trip law fails on the code.  The identifier token scanned
from "a1" normalizes to the canonical value "a1"; `Emit` renders it as
the bytes of "a\1" (a backslash directly before the digit, which is a hex
escape); re-scanning and normalizing that output yields the identifier value
U+0061 U+0001, not "a1".  The category survives but the canonical value does
not, refuting the claim as stated. -/
theorem claim_C1_roundtrip_violated :
    (Next (New [97, 49])).1 = ⟨.ident, [97, 49], 1, 1⟩ ∧
    normalize ⟨.ident, [97, 49], 1, 1⟩ = some ⟨.ident, [97, 49], 1, 1⟩ ∧
    Emit (fun _ => true) ⟨.ident, [97, 49], 1, 1⟩ = (none, [97, 92, 49]) ∧
    (Next (New [97, 92, 49])).1 = ⟨.ident, [97, 92, 49], 1, 1⟩ ∧
    normalize ⟨.ident, [97, 92, 49], 1, 1⟩ = some ⟨.ident, [97, 1], 1, 1⟩ ∧
    ([97, 1] : List Nat) ≠ [97, 49] :=
  ⟨by decide, by decide, by decide, by decide, by decide, by decide⟩

/-- C2: terminal states are absorbing: once `Next` returns a token of
category end-of-input or error, the state caches that token, and every
subsequent call returns the very same token (same category, value, line and
column) with the state unchanged. -/
theorem claim_C2_terminal_absorbing (sc : Scanner) (t : Token) (sc2 : Scanner)
    (h : Next sc = (t, sc2)) (hterm : t.typ = .eof ∨ t.typ = .error) :
    Next sc2 = (t, sc2) ∧ ∀ n, stepN n sc2 = sc2 ∧ (Next (stepN n sc2)).1 = t := by
  have hfix : Next sc2 = (t, sc2) := by
    cases herr : sc.err with
    | some u =>
      have hns : Next sc = (u, sc) := by unfold Next; rw [herr]
      rw [hns] at h
      injection h with h1 h2
      rw [← h2, ← h1]
      exact hns
    | none =>
      obtain ⟨h1, _, _⟩ := Next_spec sc herr
      rw [h] at h1
      have hsc2 : sc2 = { sc with err := some t } := h1 hterm
      rw [hsc2]
      rfl
  exact ⟨hfix, stepN_fixed sc2 t hfix⟩

/-- Witness for C2: the end-of-input state reached from the empty input
echoes its end-of-input token. -/
theorem claim_C2_witness :
    Next ⟨[], 0, 1, 1, some ⟨.eof, [], 1, 1⟩⟩
      = (⟨.eof, [], 1, 1⟩, ⟨[], 0, 1, 1, some ⟨.eof, [], 1, 1⟩⟩) :=
  (claim_C2_terminal_absorbing (New []) ⟨.eof, [], 1, 1⟩
      ⟨[], 0, 1, 1, some ⟨.eof, [], 1, 1⟩⟩ (by decide) (Or.inl rfl)).1

/-- C3: the worked examples of backslash escape decoding in string mode:
backslash 26 space B decodes to ampersand B (the space is consumed);
backslash 000026B decodes to ampersand B (six digits consume no trailer);
backslash 26G decodes to ampersand G (G is not hex and is not consumed);
backslash left-brace decodes to the left-brace alone. -/
theorem claim_C3_unbackslash_examples :
    unbackslash [92, 50, 54, 32, 66] true = [38, 66] ∧
    unbackslash [92, 48, 48, 48, 48, 50, 54, 66] true = [38, 66] ∧
    unbackslash [92, 50, 54, 71] true = [38, 71] ∧
    unbackslash [92, 123] true = [123] :=
  ⟨by decide, by decide, by decide, by decide⟩

/-- C4: position bookkeeping is byte-counted where the claim requires rune
counts.  On the input U+FEFF (three UTF-8 bytes) followed by "a", the token
after the byte-order mark carries column 4, although the mark is a single
rune, so rune-based accounting would give column 2. -/
theorem claim_C4_bom_column_in_bytes :
    (Next (New [239, 187, 191, 97])).1 = ⟨.bom, [239, 187, 191], 1, 1⟩ ∧
    (Next (Next (New [239, 187, 191, 97])).2).1 = ⟨.ident, [97], 1, 4⟩ ∧
    runeCount [239, 187, 191] = 1 ∧
    1 + runeCount [239, 187, 191] ≠ 4 :=
  ⟨by decide, by decide, by decide, by decide⟩

/-- C5: an error token produced by a fresh step of the scanner always carries
one of exactly two diagnostics, unclosed quotation mark or unclosed comment,
and freezes the scanner; concretely, scanning a lone unterminated string
yields the unclosed-quotation-mark error token and the following call
returns the very same token and state, and an unterminated comment yields
the unclosed-comment error token. -/
theorem claim_C5_two_fatal_conditions :
    (∀ sc t sc2, sc.err = none → Next sc = (t, sc2) → t.typ = .error →
      (t.value = unclosedQuoteMsg ∨ t.value = unclosedCommentMsg) ∧
      Next sc2 = (t, sc2)) ∧
    (Next (New [34, 97, 98, 99])).1 = ⟨.error, unclosedQuoteMsg, 1, 1⟩ ∧
    Next (Next (New [34, 97, 98, 99])).2
      = ((Next (New [34, 97, 98, 99])).1, (Next (New [34, 97, 98, 99])).2) ∧
    (Next (New [47, 42, 97, 98, 99])).1 = ⟨.error, unclosedCommentMsg, 1, 1⟩ := by
  refine ⟨?_, by decide, by decide, by decide⟩
  intro sc t sc2 herr h hterr
  obtain ⟨h1, h2, _⟩ := Next_spec sc herr
  rw [h] at h1 h2
  refine ⟨h2 hterr, ?_⟩
  have hsc2 : sc2 = { sc with err := some t } := h1 (Or.inr hterr)
  rw [hsc2]
  rfl

/-- Witness for C5: instantiating the universal part at the concrete
unterminated-string input. -/
theorem claim_C5_witness :
    ((⟨.error, unclosedQuoteMsg, 1, 1⟩ : Token).value = unclosedQuoteMsg ∨
     (⟨.error, unclosedQuoteMsg, 1, 1⟩ : Token).value = unclosedCommentMsg) ∧
    Next ⟨[34, 97, 98, 99], 0, 1, 1, some ⟨.error, unclosedQuoteMsg, 1, 1⟩⟩
      = (⟨.error, unclosedQuoteMsg, 1, 1⟩,
         ⟨[34, 97, 98, 99], 0, 1, 1, some ⟨.error, unclosedQuoteMsg, 1, 1⟩⟩) :=
  claim_C5_two_fatal_conditions.1 (New [34, 97, 98, 99])
    ⟨.error, unclosedQuoteMsg, 1, 1⟩
    ⟨[34, 97, 98, 99], 0, 1, 1, some ⟨.error, unclosedQuoteMsg, 1, 1⟩⟩
    (by decide) (by decide) rfl

/-- C6: scanning "red-->" yields the identifier "red--" followed by the
delimiter ">" and then end of input: the identifier production greedily
consumes the trailing dashes, and CDC is last in the fallback order
URI, function, unicode-range, identifier, dimension, percentage, number,
CDC. -/
theorem claim_C6_greedy_ident_over_cdc :
    (Next (New [114, 101, 100, 45, 45, 62])).1
      = ⟨.ident, [114, 101, 100, 45, 45], 1, 1⟩ ∧
    (Next (Next (New [114, 101, 100, 45, 45, 62])).2).1 = ⟨.delim, [62], 1, 6⟩ ∧
    (Next (Next (Next (New [114, 101, 100, 45, 45, 62])).2).2).1.typ = .eof ∧
    findString pIdent [114, 101, 100, 45, 45, 62] = [114, 101, 100, 45, 45] ∧
    matchOrder = [.uri, .function, .unicodeRange, .ident, .dimension,
                  .percentage, .number, .cdc] :=
  ⟨by decide, by decide, by decide, by decide, rfl⟩

/-- C7: URI normalization strips the url( prefix and closing parenthesis,
trims whitespace, strips one pair of matching quotes and escape-decodes:
url(/pic.png) and url(&#39;/pic.png&#39;) both normalize to /pic.png; a
whitespace-only interior normalizes to the empty value; double quotes with
surrounding space are stripped; escapes in the interior are decoded. -/
theorem claim_C7_uri_normalization :
    (Next (New [117, 114, 108, 40, 47, 112, 105, 99, 46, 112, 110, 103, 41])).1.typ
      = .uri ∧
    normalize (Next (New [117, 114, 108, 40, 47, 112, 105, 99, 46, 112, 110, 103, 41])).1
      = some ⟨.uri, [47, 112, 105, 99, 46, 112, 110, 103], 1, 1⟩ ∧
    (Next (New [117, 114, 108, 40, 39, 47, 112, 105, 99, 46, 112, 110, 103, 39, 41])).1.typ
      = .uri ∧
    normalize (Next (New [117, 114, 108, 40, 39, 47, 112, 105, 99, 46, 112, 110, 103, 39, 41])).1
      = some ⟨.uri, [47, 112, 105, 99, 46, 112, 110, 103], 1, 1⟩ ∧
    normalize (Next (New [117, 114, 108, 40, 32, 32, 41])).1 = some ⟨.uri, [], 1, 1⟩ ∧
    normalize (Next (New [117, 114, 108, 40, 32, 34, 47, 97, 34, 32, 41])).1
      = some ⟨.uri, [47, 97], 1, 1⟩ ∧
    normalize (Next (New [117, 114, 108, 40, 97, 92, 54, 50, 32, 99, 41])).1
      = some ⟨.uri, [97, 98, 99], 1, 1⟩ :=
  ⟨by decide, by decide, by decide, by decide, by decide, by decide, by decide⟩

/-- Helper for C8: with a sink whose writes all succeed, every token outside
the error and end-of-input categories emits without error. -/
theorem emit_ok_of_sink_ok (t : Token) (sink : Nat → Bool) (h1 : t.typ ≠ .error)
    (h2 : t.typ ≠ .eof) (hs : ∀ i, sink i = true) : (Emit sink t).1 = none := by
  obtain ⟨ty, v, l, c⟩ := t
  cases ty <;>
    first
      | exact absurd rfl h1
      | exact absurd rfl h2
      | exact wr_ok sink hs _ 0

/-- C8: `Emit` fails exactly on the error and end-of-input categories (each
before writing anything) and on sink write failures: with a sink that never
fails, every other category emits successfully; a sink-failure error implies
the sink actually refused a write; and any failure at all implies a terminal
category or a refused write. -/
theorem claim_C8_emit_error_iff :
    (∀ (t : Token) (sink : Nat → Bool), t.typ = .error →
        Emit sink t = (some .unemittableError, [])) ∧
    (∀ (t : Token) (sink : Nat → Bool), t.typ = .eof →
        Emit sink t = (some .unemittableEOF, [])) ∧
    (∀ (t : Token) (sink : Nat → Bool), t.typ ≠ .error → t.typ ≠ .eof →
        (∀ i, sink i = true) → (Emit sink t).1 = none) ∧
    (∀ (t : Token) (sink : Nat → Bool), (Emit sink t).1 = some .sinkFail →
        ∃ j, sink j = false) ∧
    (∀ (t : Token) (sink : Nat → Bool), (Emit sink t).1 ≠ none →
        t.typ = .error ∨ t.typ = .eof ∨ ∃ j, sink j = false) := by
  refine ⟨?_, ?_, ?_, ?_, ?_⟩
  · intro t sink ht
    obtain ⟨ty, v, l, c⟩ := t
    cases ty <;> first | rfl | simp at ht
  · intro t sink ht
    obtain ⟨ty, v, l, c⟩ := t
    cases ty <;> first | rfl | simp at ht
  · exact emit_ok_of_sink_ok
  · intro t sink h
    obtain ⟨ty, v, l, c⟩ := t
    cases ty <;>
      first
        | exact wr_fail sink _ 0 _ h
        | simp [Emit] at h
  · intro t sink h
    by_cases h1 : t.typ = .error
    · exact Or.inl h1
    by_cases h2 : t.typ = .eof
    · exact Or.inr (Or.inl h2)
    refine Or.inr (Or.inr ?_)
    by_contra hno
    push_neg at hno
    refine h (emit_ok_of_sink_ok t sink h1 h2 (fun i => ?_))
    rcases Bool.eq_false_or_eq_true (sink i) with ht | hf
    · exact ht
    · exact absurd hf (hno i)

/-- Witness for C8: an error token fails without writing; a number token
emits cleanly on a sink that never fails. -/
theorem claim_C8_witness :
    Emit (fun _ => true) ⟨.error, [], 1, 1⟩ = (some .unemittableError, []) ∧
    (Emit (fun _ => true) ⟨.number, [52, 50], 1, 1⟩).1 = none :=
  ⟨claim_C8_emit_error_iff.1 ⟨.error, [], 1, 1⟩ (fun _ => true) rfl,
   claim_C8_emit_error_iff.2.2.1 ⟨.number, [52, 50], 1, 1⟩ (fun _ => true)
     (by decide) (by decide) (fun _ => rfl)⟩

/-- C9: on any input without a backslash byte, `unbackslash` is the identity
in both string mode and non-string mode. -/
theorem claim_C9_unbackslash_identity (s : List Nat) (m : Bool)
    (h : s.contains 92 = false) : unbackslash s m = s := by
  unfold unbackslash
  rw [h]
  simp

/-- Witness for C9 on the concrete backslash-free input "ab". -/
theorem claim_C9_witness :
    ([97, 98] : List Nat).contains 92 = false ∧
    unbackslash [97, 98] true = [97, 98] :=
  ⟨by decide, claim_C9_unbackslash_identity [97, 98] true (by decide)⟩

/-- C10: progress and termination: a fresh step that produces a non-terminal
token advances the byte position by at least one and strictly shrinks the
remaining input, and from any live state a terminal token is reached after
at most as many steps as there are bytes left. -/
theorem claim_C10_progress_termination :
    (∀ sc t sc2, sc.err = none → Next sc = (t, sc2) →
      t.typ ≠ .eof → t.typ ≠ .error →
      sc.pos + 1 ≤ sc2.pos ∧ sc2.rest.length < sc.rest.length ∧ sc2.err = none) ∧
    (∀ sc : Scanner, sc.err = none →
      ∃ n, n ≤ sc.rest.length ∧
        ((Next (stepN n sc)).1.typ = .eof ∨ (Next (stepN n sc)).1.typ = .error)) := by
  constructor
  · intro sc t sc2 herr h h1 h2
    obtain ⟨_, _, h3⟩ := Next_spec sc herr
    rw [h] at h3
    obtain ⟨ha, hb, hc⟩ := h3 h1 h2
    rw [herr] at ha
    exact ⟨hb, hc, ha⟩
  · intro sc herr
    exact scanReachesTerminal sc.rest.length sc herr (le_refl _)

/-- Witness for C10 on the concrete input "a": the one-byte identifier
consumes the input, and the terminal is reached within one step. -/
theorem claim_C10_witness :
    ((New [97]).pos + 1 ≤ (⟨[], 1, 1, 2, none⟩ : Scanner).pos ∧
     (⟨[], 1, 1, 2, none⟩ : Scanner).rest.length < (New [97]).rest.length ∧
     (⟨[], 1, 1, 2, none⟩ : Scanner).err = none) ∧
    (∃ n, n ≤ (New [97]).rest.length ∧
      ((Next (stepN n (New [97]))).1.typ = .eof ∨
       (Next (stepN n (New [97]))).1.typ = .error)) :=
  ⟨claim_C10_progress_termination.1 (New [97]) ⟨.ident, [97], 1, 1⟩
      ⟨[], 1, 1, 2, none⟩ (by decide) (by decide) (by decide) (by decide),
   claim_C10_progress_termination.2 (New [97]) (by decide)⟩

end CssScanner
